import Mathlib

/- Shallow embedding of the game-turn engine and computer-opponent decision
logic of `ttt.py` (class TicTacToeGUI) together with the board constants of
`ttt_utils/constants.py`.

The 3x3 board is modelled as the list of the nine `board_labels` text values:
`' '` for an empty square, otherwise a player's mark (`'X'` for Player 1,
`'O'` for Player 2).  GUI-only effects (colors, fonts, window geometry,
`after()` timing, console prints, widget enabling) are not modelled.  The
calls to `random.shuffle` and `random.randrange` are modelled by passing the
resulting list orders, respectively the stream of produced random indices,
as explicit parameters; theorems quantify over them (with `List.Perm`
hypotheses where the source shuffles a fixed list). -/

/-- Board: the nine `board_labels` text values, in index order 0..8. -/
abbrev Board : Type := List Char

/-- Text of square `i` (`board_labels[i]['text']`); an out-of-range index reads `' '`. -/
def cell (b : Board) (i : ℕ) : Char := b.getD i ' '

/-- P1_MARK from `constants.py`. -/
abbrev P1_MARK : Char := 'X'

/-- P2_MARK from `constants.py`. -/
abbrev P2_MARK : Char := 'O'

/-- WINNING_COMBOS from `constants.py` in its literal (unshuffled) order. -/
def WINNING_COMBOS : List (ℕ × ℕ × ℕ) :=
  [(0, 1, 2), (3, 4, 5), (6, 7, 8),
   (0, 3, 6), (1, 4, 7), (2, 5, 8),
   (0, 4, 8), (2, 4, 6)]

/-- CORNERS from `constants.py`. -/
def CORNERS : List ℕ := [0, 2, 6, 8]

/-- SIDES from `constants.py` (ascending order, as after `SIDES.sort()`). -/
def SIDES : List ℕ := [1, 3, 5, 7]

/-- PARA_CORNERS from `constants.py`. -/
def PARA_CORNERS : List (List ℕ) := [[0, 8], [2, 6]]

/-- ORTHO_SIDES from `constants.py`, in dict insertion order. -/
def ORTHO_SIDES : List (ℕ × List ℕ) :=
  [(0, [1, 3]), (2, [1, 5]), (6, [3, 7]), (8, [5, 7])]

/-- META_POSITIONS from `constants.py`, in dict insertion order. -/
def META_POSITIONS : List (ℕ × List ℕ) :=
  [(0, [2, 3]), (2, [0, 5]), (6, [3, 8]), (8, [5, 6])]

/-- turn_number(): the number of `board_labels` squares whose text is not `' '`. -/
def turn_number (b : Board) : ℕ :=
  (b.filter (fun ch => decide (ch ≠ ' '))).length

/-- The opponent computation used by play_rudiments and play_defense:
`opponent = P2_MARK if mark == P1_MARK else P1_MARK`. -/
def opponent_of (mark : Char) : Char :=
  if mark = P1_MARK then P2_MARK else P1_MARK

/-- Win test of check_winner's loop body: the three squares of the combo all hold `mark`. -/
def comboMatch (b : Board) (mark : Char) (c : ℕ × ℕ × ℕ) : Bool :=
  decide (cell b c.1 = mark ∧ cell b c.2.1 = mark ∧ cell b c.2.2 = mark)

/-- A combo on which `pat` has two marks and the third square is empty, in any of
the three arrangements tested by play_rudiments (a winning move for `pat`, or,
with `pat` the opponent, a move that needs blocking). -/
def winnablePattern (b : Board) (pat : Char) (c : ℕ × ℕ × ℕ) : Bool :=
  decide ((cell b c.1 = pat ∧ cell b c.2.1 = pat ∧ cell b c.2.2 = ' ') ∨
          (cell b c.2.1 = pat ∧ cell b c.2.2 = pat ∧ cell b c.1 = ' ') ∨
          (cell b c.1 = pat ∧ cell b c.2.2 = pat ∧ cell b c.2.1 = ' '))

/-- The board whose squares on combo `c` hold `mark` and whose other six squares
are empty (the boards of testable property "win detection correctness"). -/
def pureBoard (c : ℕ × ℕ × ℕ) (mark : Char) : Board :=
  (List.range 9).map (fun i => if i = c.1 ∨ i = c.2.1 ∨ i = c.2.2 then mark else ' ')

/-- The board of an all-empty game start (`setup_game_board`). -/
def emptyBoard : Board := List.replicate 9 ' '

/-- The three play modes distinguished by `mode_clicked` inside check_winner:
`'pvp'`, `'pvpc'`, and the three `'Autoplay ...'` values. -/
inductive Mode where
  | pvp
  | pvpc
  | autoplay
  deriving DecidableEq

/-- The PC preference of the `choose_pc_pref` Combobox in PvPC mode. -/
inductive PcPref where
  | playsRandom
  | playsCenter
  | playsStrategy
  deriving DecidableEq

/-- The gameplay state mutated by TicTacToeGUI: the board squares, both
players' points (Python floats, held here as rationals), the games-played
counter `prev_game_num`, the tie counter `ties_num`, the `winner_found` flag,
the combo last passed to highlight_result/auto_flash_game (instrumentation of
which line is reported), and the `whose_turn` status text. -/
structure GameState where
  board : Board
  p1_points : ℚ
  p2_points : ℚ
  prev_game_num : ℕ
  ties_num : ℕ
  winner_found : Bool
  shown_combo : Option (ℕ × ℕ × ℕ)
  whose_turn : String

/-- Starting state on a fresh board `b` (points, games and ties at zero, no
winner found, the start prompt of `ready_player_one`). -/
def initState (b : Board) : GameState :=
  { board := b
    p1_points := 0
    p2_points := 0
    prev_game_num := 0
    ties_num := 0
    winner_found := false
    shown_combo := none
    whose_turn := "Player 1 plays X" }

/-- Effect of one winning-combo hit inside check_winner's loop: set
`winner_found`, increment `prev_game_num`, award the point (`award_points`:
player 1 iff the mark equals P1_MARK, otherwise player 2), hand the combo to
auto_flash_game (Autoplay) or highlight_result (PvP, PvPC), and - through
display_status in the non-Autoplay modes - set `whose_turn` to the pending
message. -/
def recordWin (mode : Mode) (mark : Char) (c : ℕ × ℕ × ℕ) (s : GameState) : GameState :=
  { s with winner_found := true
           prev_game_num := s.prev_game_num + 1
           p1_points := if mark = P1_MARK then s.p1_points + 1 else s.p1_points
           p2_points := if mark = P1_MARK then s.p2_points else s.p2_points + 1
           shown_combo := some c
           whose_turn := if mode = Mode.autoplay then s.whose_turn else "Game pending..." }

/-- Effect of check_winner's tie branch: set `winner_found`, increment
`prev_game_num`, give each player half a point, increment `ties_num`, flash
`(4, 4, 4)` in Autoplay or highlight the tie and set the pending message in
PvP/PvPC. -/
def tieUpdate (mode : Mode) (s : GameState) : GameState :=
  { s with winner_found := true
           prev_game_num := s.prev_game_num + 1
           p1_points := s.p1_points + 1/2
           p2_points := s.p2_points + 1/2
           ties_num := s.ties_num + 1
           shown_combo := if mode = Mode.autoplay then some (4, 4, 4) else none
           whose_turn := if mode = Mode.autoplay then s.whose_turn else "Game pending..." }

/-- The `for combo in WINNING_COMBOS` loop of check_winner, over the current
(possibly shuffled) order of WINNING_COMBOS.  In the Autoplay and PvPC arms the
loop `break`s at the first hit; in the PvP arm the source has no `break`, so
scanning continues and later hits fire again. -/
def winnerScan (mode : Mode) (mark : Char) : List (ℕ × ℕ × ℕ) → GameState → GameState
  | [], s => s
  | c :: rest, s =>
    if comboMatch s.board mark c then
      (if mode = Mode.pvp then winnerScan mode mark rest (recordWin mode mark c s)
       else recordWin mode mark c s)
    else winnerScan mode mark rest s

/-- check_winner(mark): scan the winning combos for `mark`, then declare a tie
when all nine squares are filled and no winner has been found. -/
def check_winner (mode : Mode) (combos : List (ℕ × ℕ × ℕ)) (mark : Char)
    (s : GameState) : GameState :=
  if turn_number (winnerScan mode mark combos s).board = 9 ∧
     (winnerScan mode mark combos s).winner_found = false then
    tieUpdate mode (winnerScan mode mark combos s)
  else winnerScan mode mark combos s

/-- play_random's `while turn_number == self.turn_number()` loop, consuming a
stream of `random.randrange(0, 9)` results.  The returned flag tells whether
the loop guard became false (the loop exited) before the provided stream was
used up; `false` means the loop is still running. -/
def play_random_go (tn : ℕ) (mark : Char) : List (Fin 9) → Board → Board × Bool
  | [], b => if tn ≠ turn_number b then (b, true) else (b, false)
  | r :: rest, b =>
    if tn ≠ turn_number b then (b, true)
    else if cell b r.1 = ' ' then play_random_go tn mark rest (b.set r.1 mark)
    else play_random_go tn mark rest b

/-- One pass of play_rudiments' combo loop looking for two `pat` marks and an
empty third square; on a hit it writes `mark` into the empty square and breaks,
returning the written index. -/
def rudScan (pat : Char) (mark : Char) (b : Board) : List (ℕ × ℕ × ℕ) → Board × Option ℕ
  | [] => (b, none)
  | c :: rest =>
    if cell b c.1 = pat ∧ cell b c.2.1 = pat ∧ cell b c.2.2 = ' ' then
      (b.set c.2.2 mark, some c.2.2)
    else if cell b c.2.1 = pat ∧ cell b c.2.2 = pat ∧ cell b c.1 = ' ' then
      (b.set c.1 mark, some c.1)
    else if cell b c.1 = pat ∧ cell b c.2.2 = pat ∧ cell b c.2.1 = ' ' then
      (b.set c.2.1 mark, some c.2.1)
    else rudScan pat mark b rest

/-- play_rudiments: a full play-to-win pass over the (freshly shuffled) combos,
then - only when that pass placed nothing, i.e. the turn count is unchanged -
a play-to-block pass for the opponent's mark.  `combos` is the order of
WINNING_COMBOS after the shuffle at the head of the method. -/
def play_rudiments (tn : ℕ) (mark : Char) (combos : List (ℕ × ℕ × ℕ))
    (b : Board) : Board × Option ℕ :=
  if tn = turn_number (rudScan mark mark b combos).1 then
    let w := rudScan mark mark b combos
    let bl := rudScan (opponent_of mark) mark w.1 combos
    (bl.1, if bl.2.isSome then bl.2 else w.2)
  else rudScan mark mark b combos

/-- The `oppo_positions` list of play_defense: indices of the opponent's
squares, in ascending order. -/
def oppo_positions (b : Board) (opp : Char) : List ℕ :=
  (List.range 9).filter (fun i => decide (cell b i = opp))

/-- play_defense's side-square loop: at the first opponent-held side it plays
the center when the center is empty, and breaks either way. -/
def defSideCenter (mark opp : Char) (b : Board) : List ℕ → Board × Option ℕ
  | [] => (b, none)
  | i :: rest =>
    if cell b i = opp then
      (if cell b 4 = ' ' then (b.set 4 mark, some 4) else (b, none))
    else defSideCenter mark opp b rest

/-- play_defense's lookup-table loops (ORTHO_SIDES and META_POSITIONS): play
the key corner when it is empty and the opponent's positions equal the value
list, then break. -/
def defTable (mark : Char) (oppo : List ℕ) (b : Board) :
    List (ℕ × List ℕ) → Board × Option ℕ
  | [] => (b, none)
  | (key, val) :: rest =>
    if cell b key = ' ' ∧ oppo = val then (b.set key mark, some key)
    else defTable mark oppo b rest

/-- play_defense's PARA_CORNERS loop: when the opponent's positions equal an
opposite-corner pair, play `side2play` (the head of the freshly shuffled SIDES)
with no emptiness check, then break. -/
def defPara (mark : Char) (side2play : ℕ) (oppo : List ℕ) (b : Board) :
    List (List ℕ) → Board × Option ℕ
  | [] => (b, none)
  | pr :: rest =>
    if pr = oppo then (b.set side2play mark, some side2play)
    else defPara mark side2play oppo b rest

/-- play_defense: the defensive rules in source order, each later block guarded
by `turn_number == self.turn_number()` (nothing placed yet).  `sidesOrder` is
the order of SIDES at entry (used by the side-square loop); `sidesShuffled` is
its order after the `random.shuffle(SIDES)` before the PARA_CORNERS block,
whose head is `side2play = SIDES[0]`. -/
def play_defense (tn : ℕ) (mark : Char) (sidesOrder sidesShuffled : List ℕ)
    (b : Board) : Board × Option ℕ :=
  let opp := opponent_of mark
  let oppo := oppo_positions b opp
  let r1 : Board × Option ℕ :=
    if tn = 1 ∧ cell b 4 = ' ' then (b.set 4 mark, some 4) else (b, none)
  let r2 := if tn = turn_number r1.1 then defSideCenter mark opp r1.1 sidesOrder else r1
  let r3 := if tn = turn_number r2.1 then defTable mark oppo r2.1 ORTHO_SIDES else r2
  let r4 := if tn = turn_number r3.1 then defTable mark oppo r3.1 META_POSITIONS else r3
  if tn = turn_number r4.1 then
    defPara mark (sidesShuffled.headD 1) oppo r4.1 PARA_CORNERS
  else r4

/-- play_corners' loop over the shuffled CORNERS: play the first empty corner
(the guard rechecks the turn count each pass) and break. -/
def cornersScan (tn : ℕ) (mark : Char) (b : Board) : List ℕ → Board × Option ℕ
  | [] => (b, none)
  | i :: rest =>
    if tn = turn_number b ∧ cell b i = ' ' then (b.set i mark, some i)
    else cornersScan tn mark b rest

/-- play_corners: fill an available corner, iterating CORNERS in its freshly
shuffled order. -/
def play_corners (tn : ℕ) (mark : Char) (cornersOrder : List ℕ)
    (b : Board) : Board × Option ℕ :=
  cornersScan tn mark b cornersOrder

/-- The random outcomes consumed during one PC/auto turn: the orders of
WINNING_COMBOS after the shuffle in pc_turn and after the one in
play_rudiments, the orders of SIDES seen by play_defense, the order of CORNERS
after the shuffle in play_corners, and the index streams of the (up to two)
play_random calls. -/
structure Oracle where
  combosA : List (ℕ × ℕ × ℕ)
  combosB : List (ℕ × ℕ × ℕ)
  sidesOrder : List ℕ
  sidesShuffled : List ℕ
  cornersOrder : List ℕ
  rands1 : List (Fin 9)
  rands2 : List (Fin 9)

/-- An oracle whose shuffles are all identities and whose random streams are
empty. -/
def oracle0 : Oracle :=
  { combosA := WINNING_COMBOS
    combosB := WINNING_COMBOS
    sidesOrder := SIDES
    sidesShuffled := SIDES
    cornersOrder := CORNERS
    rands1 := []
    rands2 := [] }

/-- ready_player_one(): the prompt shown when it becomes the human's turn. -/
def readyPlayerOne (mode : Mode) (b : Board) : String :=
  if mode = Mode.pvpc ∧ turn_number b = 1 then "PC played O\nYour turn Player 1"
  else "Player 1 plays X"

/-- One turn of autoplay_strategy: random opening on turn 0, then
play_rudiments, play_defense, play_corners and play_random in order, each
stage guarded by an unchanged turn count. -/
def autoplay_strategy_turn (o : Oracle) (mark : Char) (b : Board) : Board :=
  let tn := turn_number b
  let b0 := if tn = 0 then (play_random_go tn mark o.rands1 b).1 else b
  let b1 := if tn = turn_number b0 then (play_rudiments tn mark o.combosB b0).1 else b0
  let b2 :=
    if tn = turn_number b1 then (play_defense tn mark o.sidesOrder o.sidesShuffled b1).1
    else b1
  let b3 := if tn = turn_number b2 then (play_corners tn mark o.cornersOrder b2).1 else b2
  if tn = turn_number b3 then (play_random_go tn mark o.rands2 b3).1 else b3

/-- pc_turn: the PC's move in PvPC mode, following the selected preference,
then the win/block rules, the strategy rules if preferred, and a random
fallback; finally check_winner from turn 5 on (over the current order of
WINNING_COMBOS: the one left by play_rudiments when it ran, else the one from
pc_turn's own shuffle) and the hand-back prompt when no winner was found. -/
def pc_turn (pref : PcPref) (o : Oracle) (s : GameState) : GameState :=
  let tn := turn_number s.board
  let s1 :=
    if pref = PcPref.playsRandom then
      { s with board := (play_random_go tn P2_MARK o.rands1 s.board).1 }
    else if pref = PcPref.playsCenter then
      (if cell s.board 4 = ' ' then { s with board := s.board.set 4 P2_MARK } else s)
    else s
  let rudRan := tn = turn_number s1.board
  let s2 :=
    if tn = turn_number s1.board then
      { s1 with board := (play_rudiments tn P2_MARK o.combosB s1.board).1 }
    else s1
  let curOrder := if rudRan then o.combosB else o.combosA
  let s3 :=
    if pref = PcPref.playsStrategy then
      let sa :=
        if tn = turn_number s2.board then
          { s2 with board := (play_defense tn P2_MARK o.sidesOrder o.sidesShuffled s2.board).1 }
        else s2
      if tn = turn_number sa.board then
        { sa with board := (play_corners tn P2_MARK o.cornersOrder sa.board).1 }
      else sa
    else s2
  let s4 :=
    if tn = turn_number s3.board then
      { s3 with board := (play_random_go tn P2_MARK o.rands2 s3.board).1 }
    else s3
  let s5 := if 5 ≤ turn_number s4.board then check_winner Mode.pvpc curOrder P2_MARK s4 else s4
  if s5.winner_found = false then { s5 with whose_turn := readyPlayerOne Mode.pvpc s5.board } else s5

/-- Whether `p` occurs as a contiguous run in `l` (Python's `in` on strings). -/
def startsWithChars : List Char → List Char → Bool
  | [], _ => true
  | _ :: _, [] => false
  | c :: cs, d :: ds => c = d && startsWithChars cs ds

/-- Substring occurrence test used for `if PLAYER1 in self.whose_turn.get()`. -/
def hasSub (p : List Char) : List Char → Bool
  | [] => startsWithChars p []
  | l@(_ :: rest) => startsWithChars p l || hasSub p rest

/-- The rejection notice of human_turn's else branch: the current player (read
off the present `whose_turn` text) is told the square is taken. -/
def takenMsg (prev : String) : String :=
  if hasSub "Player 1".data prev.data then
    "That square is\ntaken Player 1\nPut X elsewhere."
  else
    "That square is\ntaken Player 2\nPut O elsewhere."

/-- h_plays_p1 of human_turn: place P1's mark, announce Player 2's turn. -/
def h_plays_p1 (i : ℕ) (s : GameState) : GameState :=
  { s with board := s.board.set i P1_MARK
           whose_turn := "Player 2 plays O" }

/-- h_plays_p2 of human_turn: place P2's mark, prompt via ready_player_one. -/
def h_plays_p2 (i : ℕ) (s : GameState) : GameState :=
  { s with board := s.board.set i P2_MARK
           whose_turn := readyPlayerOne Mode.pvp (s.board.set i P2_MARK) }

/-- h_plays_p1_v_pc of human_turn: place P1's mark, announce the PC's turn. -/
def h_plays_p1_v_pc (i : ℕ) (s : GameState) : GameState :=
  { s with board := s.board.set i P1_MARK
           whose_turn := "PC plays O" }

/-- human_turn on a click of square `i`: if the square is empty, place the mark
of whichever player the game/turn parities designate (PvP), or Player 1's mark
on the human's designated turns followed by the PC's reply (PvPC, the default
branch for every non-'pvp' mode), checking for a winner from turn 5 on;
otherwise only post the square-is-taken notice. -/
def human_turn (mode : Mode) (pref : PcPref) (o : Oracle) (i : ℕ)
    (s : GameState) : GameState :=
  if cell s.board i = ' ' then
    if mode = Mode.pvp then
      let s1 :=
        if s.prev_game_num % 2 = 0 then
          (if turn_number s.board % 2 = 0 then h_plays_p1 i s else h_plays_p2 i s)
        else
          (if turn_number s.board % 2 = 0 then h_plays_p2 i s else h_plays_p1 i s)
      if 5 ≤ turn_number s1.board then
        check_winner Mode.pvp o.combosA (cell s1.board i) s1
      else s1
    else
      let s1 :=
        if (turn_number s.board % 2 = 0 ∧ s.prev_game_num % 2 = 0) ∨
           (¬ turn_number s.board % 2 = 0 ∧ ¬ s.prev_game_num % 2 = 0) then
          h_plays_p1_v_pc i s
        else s
      let s2 :=
        if 5 ≤ turn_number s1.board then check_winner Mode.pvpc o.combosA P1_MARK s1
        else s1
      if turn_number s2.board < 9 ∧ s2.winner_found = false then pc_turn pref o s2 else s2
  else
    { s with whose_turn := takenMsg s.whose_turn }

/-- Legal alternating play from a given board: each listed square must be empty
and in range, marks alternate starting with `m`.  Used to exhibit reachable
boards. -/
def playSeq (m : Char) : List ℕ → Board → Option Board
  | [], b => some b
  | i :: rest, b =>
    if i < 9 ∧ cell b i = ' ' then playSeq (opponent_of m) rest (b.set i m)
    else none

/-- A board transition that never changes the value of an already-occupied
square (the board-content half of the strategy-legality invariant). -/
def preservesBoard (b b2 : Board) : Prop :=
  ∀ i, cell b i ≠ ' ' → cell b2 i = cell b i

/-- Number of squares holding mark `m`. -/
def countMark (b : Board) (m : Char) : ℕ :=
  b.countP (fun ch => decide (ch = m))

/-- The empty square `i` of some winning combo `c` whose other two squares
already hold `mark`: playing `i` completes the combo, in one of the three
arrangements tested by play_rudiments. -/
def winMoveAt (b : Board) (mark : Char) (c : ℕ × ℕ × ℕ) (i : ℕ) : Prop :=
  (i = c.2.2 ∧ cell b c.1 = mark ∧ cell b c.2.1 = mark ∧ cell b c.2.2 = ' ') ∨
  (i = c.1 ∧ cell b c.2.1 = mark ∧ cell b c.2.2 = mark ∧ cell b c.1 = ' ') ∨
  (i = c.2.1 ∧ cell b c.1 = mark ∧ cell b c.2.2 = mark ∧ cell b c.2.1 = ' ')

/-- The board reached after a legal alternating X-start sequence in which one
mark ends with two completed lines at once: X holds 0,1,2,3,6 and O holds
4,5,7,8, so both (0,1,2) and (0,3,6) are X lines. -/
def doubleWinBoard : Board := ['X', 'X', 'X', 'X', 'O', 'O', 'X', 'O', 'O']

/-- A reachable board with O exactly on the opposite corners 0 and 8 and X on
the side squares 1 and 5 (X started: 1, 0, 5, 8). -/
def paraOverwriteBoard : Board := ['O', 'X', ' ', ' ', ' ', 'X', ' ', ' ', 'O']

/-- A reachable board with O exactly on the adjacent sides 1 and 3, the center
empty, and X on square 8 (O started: 1, 8, 3); no winning or blocking move
exists for either mark. -/
def orthoSidesBoard : Board := [' ', 'O', ' ', 'O', ' ', ' ', ' ', ' ', 'X']

/-- A board with fewer than five occupied squares that already carries a full
row of X marks (not reachable by alternating play). -/
def earlyRowBoard : Board := ['X', 'X', 'X', ' ', ' ', ' ', ' ', ' ', ' ']

/-- A legally-shaped board with fewer than five occupied squares (X twice, O
once). -/
def earlyLegalBoard : Board := ['X', 'O', ' ', ' ', 'X', ' ', ' ', ' ', ' ']

/-- A full board with no three-in-a-row for either mark (the first entry of the
TIES table in `constants.py`). -/
def tieBoard : Board := ['O', 'O', 'X', 'X', 'O', 'O', 'O', 'X', 'X']

/-- A full board of X marks. -/
def fullBoard : Board := List.replicate 9 'X'

/-- A board with a winning move for X (top row, square 2 open) and a blocking
need against O (middle row, square 5 open) at the same time. -/
def rudTestBoard : Board := ['X', 'X', ' ', 'O', 'O', ' ', ' ', ' ', ' ']

/-- Stage 1 of play_defense: on the opponent's first turn, take the open
center. -/
def defR1 (tn : ℕ) (mark : Char) (b : Board) : Board × Option ℕ :=
  if tn = 1 ∧ cell b 4 = ' ' then (b.set 4 mark, some 4) else (b, none)

/-- Stages 1-2 of play_defense: then, when nothing is placed yet and the
opponent holds a side square, take the open center. -/
def defR2 (tn : ℕ) (mark : Char) (sidesOrder : List ℕ) (b : Board) : Board × Option ℕ :=
  if tn = turn_number (defR1 tn mark b).1 then
    defSideCenter mark (opponent_of mark) (defR1 tn mark b).1 sidesOrder
  else defR1 tn mark b

/-- Stages 1-3 of play_defense: then the ORTHO_SIDES corner lookup. -/
def defR3 (tn : ℕ) (mark : Char) (sidesOrder : List ℕ) (b : Board) : Board × Option ℕ :=
  if tn = turn_number (defR2 tn mark sidesOrder b).1 then
    defTable mark (oppo_positions b (opponent_of mark)) (defR2 tn mark sidesOrder b).1
      ORTHO_SIDES
  else defR2 tn mark sidesOrder b

/-- Stages 1-4 of play_defense: then the META_POSITIONS corner lookup. -/
def defR4 (tn : ℕ) (mark : Char) (sidesOrder : List ℕ) (b : Board) : Board × Option ℕ :=
  if tn = turn_number (defR3 tn mark sidesOrder b).1 then
    defTable mark (oppo_positions b (opponent_of mark)) (defR3 tn mark sidesOrder b).1
      META_POSITIONS
  else defR3 tn mark sidesOrder b

theorem turn_number_eq_countP (b : Board) :
    turn_number b = b.countP (fun ch => decide (ch ≠ ' ')) :=
  (List.countP_eq_length_filter _ b).symm

theorem countP_ge_one (p : Char → Bool) (hp : p ' ' = false) :
    ∀ (b : Board) (i : ℕ), p (cell b i) = true → 1 ≤ b.countP p := by
  intro b
  induction b with
  | nil =>
    intro i hi
    simp [cell, List.getD_nil] at hi
    rw [hp] at hi
    exact absurd hi (by simp)
  | cons a t ih =>
    intro i hi
    cases i with
    | zero =>
      rw [cell, List.getD_cons_zero] at hi
      have hone : (if p a = true then 1 else 0) = 1 := by simp [hi]
      rw [List.countP_cons, hone]
      omega
    | succ n =>
      rw [cell, List.getD_cons_succ] at hi
      have h1 := ih n hi
      rw [List.countP_cons]
      omega

theorem countP_ge_two (p : Char → Bool) (hp : p ' ' = false) :
    ∀ (b : Board) (i j : ℕ), i < j →
      p (cell b i) = true → p (cell b j) = true → 2 ≤ b.countP p := by
  intro b
  induction b with
  | nil =>
    intro i j _ hi _
    simp [cell, List.getD_nil] at hi
    rw [hp] at hi
    exact absurd hi (by simp)
  | cons a t ih =>
    intro i j hij hi hj
    cases i with
    | zero =>
      rw [cell, List.getD_cons_zero] at hi
      obtain ⟨k, rfl⟩ : ∃ k, j = k + 1 := ⟨j - 1, by omega⟩
      rw [cell, List.getD_cons_succ] at hj
      have h1 := countP_ge_one p hp t k hj
      have hone : (if p a = true then 1 else 0) = 1 := by simp [hi]
      rw [List.countP_cons, hone]
      omega
    | succ n =>
      obtain ⟨k, rfl⟩ : ∃ k, j = k + 1 := ⟨j - 1, by omega⟩
      rw [cell, List.getD_cons_succ] at hi
      rw [cell, List.getD_cons_succ] at hj
      have h1 := ih n k (by omega) hi hj
      rw [List.countP_cons]
      omega

theorem countP_ge_three (p : Char → Bool) (hp : p ' ' = false) :
    ∀ (b : Board) (i j k : ℕ), i < j → j < k →
      p (cell b i) = true → p (cell b j) = true → p (cell b k) = true →
      3 ≤ b.countP p := by
  intro b
  induction b with
  | nil =>
    intro i j k _ _ hi _ _
    simp [cell, List.getD_nil] at hi
    rw [hp] at hi
    exact absurd hi (by simp)
  | cons a t ih =>
    intro i j k hij hjk hi hj hk
    cases i with
    | zero =>
      rw [cell, List.getD_cons_zero] at hi
      obtain ⟨j2, rfl⟩ : ∃ j2, j = j2 + 1 := ⟨j - 1, by omega⟩
      obtain ⟨k2, rfl⟩ : ∃ k2, k = k2 + 1 := ⟨k - 1, by omega⟩
      rw [cell, List.getD_cons_succ] at hj
      rw [cell, List.getD_cons_succ] at hk
      have h1 := countP_ge_two p hp t j2 k2 (by omega) hj hk
      have hone : (if p a = true then 1 else 0) = 1 := by simp [hi]
      rw [List.countP_cons, hone]
      omega
    | succ n =>
      obtain ⟨j2, rfl⟩ : ∃ j2, j = j2 + 1 := ⟨j - 1, by omega⟩
      obtain ⟨k2, rfl⟩ : ∃ k2, k = k2 + 1 := ⟨k - 1, by omega⟩
      rw [cell, List.getD_cons_succ] at hi
      rw [cell, List.getD_cons_succ] at hj
      rw [cell, List.getD_cons_succ] at hk
      have h1 := ih n j2 k2 (by omega) (by omega) hi hj hk
      rw [List.countP_cons]
      omega

theorem cell_set_ne (m : Char) :
    ∀ (b : Board) (i j : ℕ), i ≠ j → cell (b.set j m) i = cell b i := by
  intro b
  induction b with
  | nil => intro i j _; simp [List.set]
  | cons a t ih =>
    intro i j hij
    cases j with
    | zero =>
      obtain ⟨n, rfl⟩ : ∃ n, i = n + 1 := ⟨i - 1, by omega⟩
      simp [List.set, cell, List.getD_cons_succ]
    | succ k =>
      cases i with
      | zero => simp [List.set, cell, List.getD_cons_zero]
      | succ n =>
        simp only [List.set, cell, List.getD_cons_succ]
        exact ih n k (by omega)

theorem set_cell_self (m : Char) :
    ∀ (b : Board) (j : ℕ), cell b j = m → b.set j m = b := by
  intro b
  induction b with
  | nil => intro j _; simp [List.set]
  | cons a t ih =>
    intro j hj
    cases j with
    | zero =>
      rw [cell, List.getD_cons_zero] at hj
      simp [List.set, hj]
    | succ k =>
      rw [cell, List.getD_cons_succ] at hj
      simp [List.set, ih k hj]

theorem cell_mem (b : Board) (i : ℕ) (h : i < b.length) : cell b i ∈ b := by
  rw [cell, List.getD_eq_getElem b ' ' h]
  exact List.getElem_mem h

theorem turn_number_set_succ (b : Board) (j : ℕ) (m : Char) (hj : j < b.length)
    (hb : cell b j = ' ') (hm : m ≠ ' ') :
    turn_number (b.set j m) = turn_number b + 1 := by
  rw [turn_number_eq_countP, turn_number_eq_countP]
  induction b generalizing j with
  | nil => simp at hj
  | cons a t ih =>
    cases j with
    | zero =>
      rw [cell, List.getD_cons_zero] at hb
      subst hb
      simp only [List.set, List.countP_cons]
      simp [hm]
    | succ k =>
      rw [cell, List.getD_cons_succ] at hb
      simp only [List.length_cons] at hj
      simp only [List.set, List.countP_cons]
      rw [ih k (by omega) hb]
      omega

theorem preservesBoard_trans {b b2 b3 : Board}
    (h1 : preservesBoard b b2) (h2 : preservesBoard b2 b3) :
    preservesBoard b b3 := by
  intro i hi
  have e1 := h1 i hi
  have e2 := h2 i (by rw [e1]; exact hi)
  rw [e2, e1]

theorem preservesBoard_refl (b : Board) : preservesBoard b b := fun _ _ => rfl

theorem preservesBoard_set_empty (b : Board) (j : ℕ) (m : Char)
    (hb : cell b j = ' ') : preservesBoard b (b.set j m) := by
  intro i hi
  have hij : i ≠ j := fun h => hi (h ▸ hb)
  exact cell_set_ne m b i j hij

theorem preservesBoard_set_same (b : Board) (j : ℕ) (m : Char)
    (hb : cell b j = m) : preservesBoard b (b.set j m) := by
  rw [set_cell_self m b j hb]
  exact preservesBoard_refl b

theorem recordWin_board (mode : Mode) (mark : Char) (c : ℕ × ℕ × ℕ) (s : GameState) :
    (recordWin mode mark c s).board = s.board := rfl

theorem winnerScan_board (mode : Mode) (mark : Char) :
    ∀ (l : List (ℕ × ℕ × ℕ)) (s : GameState),
      (winnerScan mode mark l s).board = s.board := by
  intro l
  induction l with
  | nil => intro s; rfl
  | cons c rest ih =>
    intro s
    rw [winnerScan]
    by_cases h : comboMatch s.board mark c = true
    · rw [if_pos h]
      by_cases hm : mode = Mode.pvp
      · rw [if_pos hm, ih]
        rfl
      · rw [if_neg hm]
        rfl
    · rw [if_neg h]
      exact ih s

theorem winnerScan_no_match (mode : Mode) (mark : Char) :
    ∀ (l : List (ℕ × ℕ × ℕ)) (s : GameState),
      (∀ c ∈ l, comboMatch s.board mark c = false) →
      winnerScan mode mark l s = s := by
  intro l
  induction l with
  | nil => intro s _; rfl
  | cons c rest ih =>
    intro s h
    have hc := h c (List.mem_cons_self c rest)
    rw [winnerScan, if_neg (by rw [hc]; simp)]
    exact ih s (fun d hd => h d (List.mem_cons_of_mem c hd))

theorem winnerScan_unique (mode : Mode) (mark : Char) :
    ∀ (l : List (ℕ × ℕ × ℕ)) (s : GameState) (c : ℕ × ℕ × ℕ),
      l.Nodup → c ∈ l → comboMatch s.board mark c = true →
      (∀ d ∈ l, comboMatch s.board mark d = true → d = c) →
      winnerScan mode mark l s = recordWin mode mark c s := by
  intro l
  induction l with
  | nil => intro s c _ hmem _ _; exact absurd hmem (List.not_mem_nil c)
  | cons e rest ih =>
    intro s c hnd hmem hc huniq
    by_cases he : comboMatch s.board mark e = true
    · have hec : e = c := huniq e (List.mem_cons_self e rest) he
      subst hec
      have hnotin : e ∉ rest := (List.nodup_cons.mp hnd).1
      rw [winnerScan, if_pos he]
      by_cases hmode : mode = Mode.pvp
      · rw [if_pos hmode]
        refine winnerScan_no_match mode mark rest (recordWin mode mark e s) ?_
        intro d hd
        rw [recordWin_board]
        by_cases hdm : comboMatch s.board mark d = true
        · have : d = e := huniq d (List.mem_cons_of_mem e hd) hdm
          exact absurd (this ▸ hd) hnotin
        · cases hval : comboMatch s.board mark d with
          | false => rfl
          | true => exact absurd hval hdm
      · rw [if_neg hmode]
    · have hmem2 : c ∈ rest := by
        rcases List.mem_cons.mp hmem with h | h
        · exact absurd (h ▸ hc) he
        · exact h
      rw [winnerScan, if_neg he]
      exact ih s c (List.nodup_cons.mp hnd).2 hmem2 hc
        (fun d hd hdm => huniq d (List.mem_cons_of_mem e hd) hdm)

theorem comboMatch_iff (b : Board) (mark : Char) (d : ℕ × ℕ × ℕ) :
    comboMatch b mark d = true ↔
      (cell b d.1 = mark ∧ cell b d.2.1 = mark ∧ cell b d.2.2 = mark) := by
  simp [comboMatch]

theorem combos_nodup : WINNING_COMBOS.Nodup := by decide

theorem combos_bounds : ∀ d ∈ WINNING_COMBOS, d.1 < d.2.1 ∧ d.2.1 < d.2.2 ∧ d.2.2 < 9 := by
  decide

theorem pure_match_X : ∀ c ∈ WINNING_COMBOS, comboMatch (pureBoard c 'X') 'X' c = true := by
  decide

theorem pure_match_O : ∀ c ∈ WINNING_COMBOS, comboMatch (pureBoard c 'O') 'O' c = true := by
  decide

theorem pure_unique_X :
    ∀ c ∈ WINNING_COMBOS, ∀ d ∈ WINNING_COMBOS,
      comboMatch (pureBoard c 'X') 'X' d = true → d = c := by
  decide

theorem pure_unique_O :
    ∀ c ∈ WINNING_COMBOS, ∀ d ∈ WINNING_COMBOS,
      comboMatch (pureBoard c 'O') 'O' d = true → d = c := by
  decide

/-- C1: for each of the 8 winning index triples (3 rows, 3 columns, 2
diagonals), and any shuffle order of WINNING_COMBOS, a board whose three
squares of that triple all hold one mark and whose other six squares are empty
is evaluated by check_winner(mark) as a win for that mark: winner_found
becomes true, the games-played counter advances, and award_points credits that
mark's side (player 1 for P1_MARK, player 2 otherwise) with exactly one
point. -/
theorem C1_win_detection (mode : Mode) (combos : List (ℕ × ℕ × ℕ))
    (hp : combos.Perm WINNING_COMBOS) (c : ℕ × ℕ × ℕ) (hc : c ∈ WINNING_COMBOS)
    (mark : Char) (hm : mark = 'X' ∨ mark = 'O') (s : GameState)
    (hb : s.board = pureBoard c mark) :
    (check_winner mode combos mark s).winner_found = true ∧
    (check_winner mode combos mark s).prev_game_num = s.prev_game_num + 1 ∧
    (check_winner mode combos mark s).p1_points =
      (if mark = P1_MARK then s.p1_points + 1 else s.p1_points) ∧
    (check_winner mode combos mark s).p2_points =
      (if mark = P1_MARK then s.p2_points else s.p2_points + 1) := by
  have hmem : c ∈ combos := hp.mem_iff.mpr hc
  have hnd : combos.Nodup := hp.nodup_iff.mpr combos_nodup
  have hmatch : comboMatch s.board mark c = true := by
    rw [hb]
    rcases hm with h | h <;> subst h
    · exact pure_match_X c hc
    · exact pure_match_O c hc
  have huniq : ∀ d ∈ combos, comboMatch s.board mark d = true → d = c := by
    intro d hd hdm
    have hd2 : d ∈ WINNING_COMBOS := hp.subset hd
    rw [hb] at hdm
    rcases hm with h | h <;> subst h
    · exact pure_unique_X c hc d hd2 hdm
    · exact pure_unique_O c hc d hd2 hdm
  have hscan : winnerScan mode mark combos s = recordWin mode mark c s :=
    winnerScan_unique mode mark combos s c hnd hmem hmatch huniq
  have hcw : check_winner mode combos mark s = recordWin mode mark c s := by
    rw [check_winner, hscan, if_neg]
    intro h
    exact absurd h.2 (by simp [recordWin])
  rw [hcw]
  refine ⟨rfl, rfl, rfl, rfl⟩

/-- C1 witness: the top row fully held by X on an otherwise empty board is
scored as an X win with one point to player 1. -/
theorem C1_witness :
    ((0, 1, 2) ∈ WINNING_COMBOS ∧ ('X' = 'X' ∨ 'X' = 'O')) ∧
    ((check_winner Mode.autoplay WINNING_COMBOS 'X'
        (initState (pureBoard (0, 1, 2) 'X'))).winner_found = true ∧
     (check_winner Mode.autoplay WINNING_COMBOS 'X'
        (initState (pureBoard (0, 1, 2) 'X'))).prev_game_num =
       (initState (pureBoard (0, 1, 2) 'X')).prev_game_num + 1 ∧
     (check_winner Mode.autoplay WINNING_COMBOS 'X'
        (initState (pureBoard (0, 1, 2) 'X'))).p1_points =
       (if 'X' = P1_MARK then (initState (pureBoard (0, 1, 2) 'X')).p1_points + 1
        else (initState (pureBoard (0, 1, 2) 'X')).p1_points) ∧
     (check_winner Mode.autoplay WINNING_COMBOS 'X'
        (initState (pureBoard (0, 1, 2) 'X'))).p2_points =
       (if 'X' = P1_MARK then (initState (pureBoard (0, 1, 2) 'X')).p2_points
        else (initState (pureBoard (0, 1, 2) 'X')).p2_points + 1)) :=
  ⟨⟨by decide, Or.inl rfl⟩,
   C1_win_detection Mode.autoplay WINNING_COMBOS (List.Perm.refl _) (0, 1, 2)
     (by decide) 'X' (Or.inl rfl) (initState (pureBoard (0, 1, 2) 'X')) rfl⟩

/-- C9 corrected: which line check_winner reports is a deterministic function
of the board, the mark, and the current order of WINNING_COMBOS; whenever the
board has a unique complete line for the mark (the case in legal play without
a double win), every shuffle order makes check_winner report that same line
and find the winner. -/
theorem C9_unique_line_deterministic (mode : Mode) (combos : List (ℕ × ℕ × ℕ))
    (hp : combos.Perm WINNING_COMBOS) (mark : Char) (s : GameState) (c : ℕ × ℕ × ℕ)
    (hmem : c ∈ WINNING_COMBOS) (hmatch : comboMatch s.board mark c = true)
    (huniq : ∀ d ∈ WINNING_COMBOS, comboMatch s.board mark d = true → d = c) :
    (check_winner mode combos mark s).shown_combo = some c ∧
    (check_winner mode combos mark s).winner_found = true := by
  have hmem2 : c ∈ combos := hp.mem_iff.mpr hmem
  have hnd : combos.Nodup := hp.nodup_iff.mpr combos_nodup
  have hscan : winnerScan mode mark combos s = recordWin mode mark c s :=
    winnerScan_unique mode mark combos s c hnd hmem2 hmatch
      (fun d hd hdm => huniq d (hp.subset hd) hdm)
  have hcw : check_winner mode combos mark s = recordWin mode mark c s := by
    rw [check_winner, hscan, if_neg]
    intro h
    exact absurd h.2 (by simp [recordWin])
  rw [hcw]
  exact ⟨rfl, rfl⟩

/-- C9 witness: with a unique complete line (the middle row of O), even the
reversed combo order reports exactly that line. -/
theorem C9_witness :
    (WINNING_COMBOS.reverse.Perm WINNING_COMBOS ∧
     (3, 4, 5) ∈ WINNING_COMBOS ∧
     comboMatch (initState (pureBoard (3, 4, 5) 'O')).board 'O' (3, 4, 5) = true ∧
     (∀ d ∈ WINNING_COMBOS,
        comboMatch (initState (pureBoard (3, 4, 5) 'O')).board 'O' d = true →
          d = (3, 4, 5))) ∧
    ((check_winner Mode.pvp WINNING_COMBOS.reverse 'O'
        (initState (pureBoard (3, 4, 5) 'O'))).shown_combo = some (3, 4, 5) ∧
     (check_winner Mode.pvp WINNING_COMBOS.reverse 'O'
        (initState (pureBoard (3, 4, 5) 'O'))).winner_found = true) :=
  ⟨⟨List.reverse_perm _, by decide, by decide, by decide⟩,
   C9_unique_line_deterministic Mode.pvp WINNING_COMBOS.reverse
     (List.reverse_perm _) 'O' (initState (pureBoard (3, 4, 5) 'O')) (3, 4, 5)
     (by decide) (by decide) (by decide)⟩

/-- C9 counterexample: WINNING_COMBOS is shuffled between evaluations, and on
the reachable double-win board below two shuffle outcomes (the literal order
and its reversal, a permutation of it) make the same call on the same board
and mark report different first matching lines: (0, 1, 2) versus (0, 3, 6).
The examined order is therefore not deterministic for a fixed board. -/
theorem C9_counterexample :
    List.Perm WINNING_COMBOS.reverse WINNING_COMBOS ∧
    playSeq 'X' [1, 4, 2, 5, 3, 7, 6, 8, 0] emptyBoard = some doubleWinBoard ∧
    (check_winner Mode.pvpc WINNING_COMBOS 'X'
        (initState doubleWinBoard)).shown_combo = some (0, 1, 2) ∧
    (check_winner Mode.pvpc WINNING_COMBOS.reverse 'X'
        (initState doubleWinBoard)).shown_combo = some (0, 3, 6) :=
  ⟨List.reverse_perm _, by decide, by decide, by decide⟩

/-- C5 counterexample: on an arbitrary-content board with only three occupied
squares (a full X top row, unreachable by alternating play), check_winner
already declares a win and scores it, so "regardless of the board's content"
is false. -/
theorem C5_counterexample :
    turn_number earlyRowBoard < 5 ∧
    (check_winner Mode.pvp WINNING_COMBOS 'X' (initState earlyRowBoard)).winner_found = true ∧
    (check_winner Mode.pvp WINNING_COMBOS 'X' (initState earlyRowBoard)).p1_points = 1 ∧
    (check_winner Mode.pvp WINNING_COMBOS 'X' (initState earlyRowBoard)).prev_game_num = 1 := by
  have h : check_winner Mode.pvp WINNING_COMBOS 'X' (initState earlyRowBoard) =
      recordWin Mode.pvp 'X' (0, 1, 2) (initState earlyRowBoard) := rfl
  rw [h]
  refine ⟨by decide, rfl, ?_, rfl⟩
  norm_num [recordWin, initState]

/-- C5 corrected: on a board with fewer than five occupied squares in which
each mark occupies at most two squares (as on every board produced by
alternating play), check_winner changes nothing: no win and no tie is
declared, for every shuffle order and both marks. -/
theorem C5_legal_boards_in_progress (mode : Mode) (combos : List (ℕ × ℕ × ℕ))
    (hp : combos.Perm WINNING_COMBOS) (mark : Char) (hm : mark = 'X' ∨ mark = 'O')
    (s : GameState) (hX : countMark s.board 'X' ≤ 2) (hO : countMark s.board 'O' ≤ 2)
    (ht : turn_number s.board < 5) :
    check_winner mode combos mark s = s := by
  have hnm : ∀ d ∈ combos, comboMatch s.board mark d = false := by
    intro d hd
    cases hval : comboMatch s.board mark d with
    | false => rfl
    | true =>
      exfalso
      have hd2 := hp.subset hd
      obtain ⟨h1, h2, h3⟩ := (comboMatch_iff s.board mark d).mp hval
      obtain ⟨hb1, hb2, _⟩ := combos_bounds d hd2
      have hsp : (fun ch => decide (ch = mark)) ' ' = false := by
        rcases hm with h | h <;> subst h <;> decide
      have h3c : 3 ≤ s.board.countP (fun ch => decide (ch = mark)) := by
        refine countP_ge_three _ hsp s.board d.1 d.2.1 d.2.2 hb1 hb2 ?_ ?_ ?_
        · rw [h1]; simp
        · rw [h2]; simp
        · rw [h3]; simp
      have hcm : 3 ≤ countMark s.board mark := h3c
      rcases hm with h | h <;> subst h
      · exact absurd hcm (by omega)
      · exact absurd hcm (by omega)
  have hscan : winnerScan mode mark combos s = s :=
    winnerScan_no_match mode mark combos s hnm
  rw [check_winner, hscan, if_neg]
  intro h
  obtain ⟨h1, _⟩ := h
  omega

/-- C5 witness: a legally-shaped three-turn board is left untouched. -/
theorem C5_witness :
    (('X' = 'X' ∨ 'X' = 'O') ∧
     countMark (initState earlyLegalBoard).board 'X' ≤ 2 ∧
     countMark (initState earlyLegalBoard).board 'O' ≤ 2 ∧
     turn_number (initState earlyLegalBoard).board < 5) ∧
    check_winner Mode.pvp WINNING_COMBOS 'X' (initState earlyLegalBoard) =
      initState earlyLegalBoard :=
  ⟨⟨Or.inl rfl, by decide, by decide, by decide⟩,
   C5_legal_boards_in_progress Mode.pvp WINNING_COMBOS (List.Perm.refl _) 'X'
     (Or.inl rfl) (initState earlyLegalBoard) (by decide) (by decide) (by decide)⟩

/-- C8: every fully occupied board holding only the two marks and containing
no complete line for either mark is scored as a tie by check_winner, for every
mode, every shuffle order and whichever mark is checked: the game is marked
finished, each side gains half a point, and the tie and game counters
advance by one. -/
theorem C8_tie_scoring (mode : Mode) (combos : List (ℕ × ℕ × ℕ))
    (hp : combos.Perm WINNING_COMBOS) (mark : Char) (s : GameState)
    (hlen : s.board.length = 9) (hfull : ∀ ch ∈ s.board, ch = 'X' ∨ ch = 'O')
    (hnoX : ∀ d ∈ WINNING_COMBOS, comboMatch s.board 'X' d = false)
    (hnoO : ∀ d ∈ WINNING_COMBOS, comboMatch s.board 'O' d = false)
    (hw : s.winner_found = false) :
    (check_winner mode combos mark s).winner_found = true ∧
    (check_winner mode combos mark s).prev_game_num = s.prev_game_num + 1 ∧
    (check_winner mode combos mark s).p1_points = s.p1_points + 1/2 ∧
    (check_winner mode combos mark s).p2_points = s.p2_points + 1/2 ∧
    (check_winner mode combos mark s).ties_num = s.ties_num + 1 := by
  have hnm : ∀ d ∈ combos, comboMatch s.board mark d = false := by
    intro d hd
    cases hval : comboMatch s.board mark d with
    | false => rfl
    | true =>
      exfalso
      have hd2 := hp.subset hd
      obtain ⟨h1, _, _⟩ := (comboMatch_iff s.board mark d).mp hval
      obtain ⟨hb1, hb2, hb3⟩ := combos_bounds d hd2
      have hd1lt : d.1 < s.board.length := by omega
      have hmem := cell_mem s.board d.1 hd1lt
      rw [h1] at hmem
      rcases hfull mark hmem with h | h <;> subst h
      · exact absurd hval (by simp [hnoX d hd2])
      · exact absurd hval (by simp [hnoO d hd2])
  have hscan : winnerScan mode mark combos s = s :=
    winnerScan_no_match mode mark combos s hnm
  have h9 : turn_number s.board = 9 := by
    rw [turn_number]
    have hfil : s.board.filter (fun ch => decide (ch ≠ ' ')) = s.board :=
      List.filter_eq_self.mpr (by intro a ha; rcases hfull a ha with h | h <;> subst h <;> decide)
    rw [hfil, hlen]
  rw [check_winner, hscan, if_pos ⟨h9, hw⟩]
  exact ⟨rfl, rfl, rfl, rfl, rfl⟩

/-- C8 witness: the first board of the TIES table in `constants.py` scores as
a tie in Autoplay mode. -/
theorem C8_witness :
    ((initState tieBoard).board.length = 9 ∧
     (∀ ch ∈ (initState tieBoard).board, ch = 'X' ∨ ch = 'O') ∧
     (∀ d ∈ WINNING_COMBOS, comboMatch (initState tieBoard).board 'X' d = false) ∧
     (∀ d ∈ WINNING_COMBOS, comboMatch (initState tieBoard).board 'O' d = false) ∧
     (initState tieBoard).winner_found = false) ∧
    ((check_winner Mode.autoplay WINNING_COMBOS 'X' (initState tieBoard)).winner_found = true ∧
     (check_winner Mode.autoplay WINNING_COMBOS 'X' (initState tieBoard)).prev_game_num =
       (initState tieBoard).prev_game_num + 1 ∧
     (check_winner Mode.autoplay WINNING_COMBOS 'X' (initState tieBoard)).p1_points =
       (initState tieBoard).p1_points + 1/2 ∧
     (check_winner Mode.autoplay WINNING_COMBOS 'X' (initState tieBoard)).p2_points =
       (initState tieBoard).p2_points + 1/2 ∧
     (check_winner Mode.autoplay WINNING_COMBOS 'X' (initState tieBoard)).ties_num =
       (initState tieBoard).ties_num + 1) :=
  ⟨⟨by decide, by decide, by decide, by decide, rfl⟩,
   C8_tie_scoring Mode.autoplay WINNING_COMBOS (List.Perm.refl _) 'X'
     (initState tieBoard) (by decide) (by decide) (by decide) (by decide) rfl⟩

/-- C2: check_winner's PvP arm lacks the `break` of the Autoplay and PvPC
arms, so on the reachable board below - where X's last move completes the two
lines (0, 1, 2) and (0, 3, 6) at once - the PvP game awards player 1 two
points and advances the games-played counter by two, while the PvPC game on
the same board awards one point and one game.  This contradicts the source's
own comment that the loop breaks at the first winning combo. -/
theorem C2_pvp_double_award :
    playSeq 'X' [1, 4, 2, 5, 3, 7, 6, 8, 0] emptyBoard = some doubleWinBoard ∧
    comboMatch doubleWinBoard 'X' (0, 1, 2) = true ∧
    comboMatch doubleWinBoard 'X' (0, 3, 6) = true ∧
    (check_winner Mode.pvp WINNING_COMBOS 'X' (initState doubleWinBoard)).p1_points = 2 ∧
    (check_winner Mode.pvp WINNING_COMBOS 'X' (initState doubleWinBoard)).p2_points = 0 ∧
    (check_winner Mode.pvp WINNING_COMBOS 'X' (initState doubleWinBoard)).prev_game_num = 2 ∧
    (check_winner Mode.pvpc WINNING_COMBOS 'X' (initState doubleWinBoard)).p1_points = 1 ∧
    (check_winner Mode.pvpc WINNING_COMBOS 'X' (initState doubleWinBoard)).prev_game_num = 1 := by
  have hpvp : check_winner Mode.pvp WINNING_COMBOS 'X' (initState doubleWinBoard) =
      recordWin Mode.pvp 'X' (0, 3, 6)
        (recordWin Mode.pvp 'X' (0, 1, 2) (initState doubleWinBoard)) := rfl
  have hpvpc : check_winner Mode.pvpc WINNING_COMBOS 'X' (initState doubleWinBoard) =
      recordWin Mode.pvpc 'X' (0, 1, 2) (initState doubleWinBoard) := rfl
  rw [hpvp, hpvpc]
  refine ⟨by decide, by decide, by decide, ?_, ?_, rfl, ?_, rfl⟩
  · norm_num [recordWin, initState]
  · norm_num [recordWin, initState]
  · norm_num [recordWin, initState]

/-- C7: clicking an already-occupied square leaves the board, both scores, the
games-played counter, the tie counter and the winner flag exactly unchanged,
in every mode and for every PC preference; the only effect is the
square-is-taken rejection notice. -/
theorem C7_occupied_click_rejected (mode : Mode) (pref : PcPref) (o : Oracle)
    (i : ℕ) (s : GameState) (h : cell s.board i ≠ ' ') :
    (human_turn mode pref o i s).board = s.board ∧
    (human_turn mode pref o i s).p1_points = s.p1_points ∧
    (human_turn mode pref o i s).p2_points = s.p2_points ∧
    (human_turn mode pref o i s).prev_game_num = s.prev_game_num ∧
    (human_turn mode pref o i s).ties_num = s.ties_num ∧
    (human_turn mode pref o i s).winner_found = s.winner_found ∧
    (human_turn mode pref o i s).whose_turn = takenMsg s.whose_turn := by
  have hht : human_turn mode pref o i s = { s with whose_turn := takenMsg s.whose_turn } := by
    rw [human_turn, if_neg h]
  rw [hht]
  exact ⟨rfl, rfl, rfl, rfl, rfl, rfl, rfl⟩

/-- C7 witness: clicking occupied square 0 of the full double-win board in PvP
mode changes nothing but the notice. -/
theorem C7_witness :
    cell (initState doubleWinBoard).board 0 ≠ ' ' ∧
    ((human_turn Mode.pvp PcPref.playsRandom oracle0 0 (initState doubleWinBoard)).board =
       (initState doubleWinBoard).board ∧
     (human_turn Mode.pvp PcPref.playsRandom oracle0 0 (initState doubleWinBoard)).p1_points =
       (initState doubleWinBoard).p1_points ∧
     (human_turn Mode.pvp PcPref.playsRandom oracle0 0 (initState doubleWinBoard)).p2_points =
       (initState doubleWinBoard).p2_points ∧
     (human_turn Mode.pvp PcPref.playsRandom oracle0 0 (initState doubleWinBoard)).prev_game_num =
       (initState doubleWinBoard).prev_game_num ∧
     (human_turn Mode.pvp PcPref.playsRandom oracle0 0 (initState doubleWinBoard)).ties_num =
       (initState doubleWinBoard).ties_num ∧
     (human_turn Mode.pvp PcPref.playsRandom oracle0 0 (initState doubleWinBoard)).winner_found =
       (initState doubleWinBoard).winner_found ∧
     (human_turn Mode.pvp PcPref.playsRandom oracle0 0 (initState doubleWinBoard)).whose_turn =
       takenMsg (initState doubleWinBoard).whose_turn) :=
  ⟨by decide,
   C7_occupied_click_rejected Mode.pvp PcPref.playsRandom oracle0 0
     (initState doubleWinBoard) (by decide)⟩

/-- C10: invoked on a fully occupied board with its turn_number argument equal
to the current occupied count, play_random's while loop never terminates: for
every sequence of random indices the guard stays true, no square is written,
and no exit or error occurs (the model is total, as randrange(0, 9) on valid
bounds raises nothing). -/
theorem C10_full_board_never_terminates (b : Board)
    (hfull : ∀ i, i < 9 → cell b i ≠ ' ') (tn : ℕ) (ht : tn = turn_number b)
    (mark : Char) (rs : List (Fin 9)) :
    play_random_go tn mark rs b = (b, false) := by
  subst ht
  induction rs with
  | nil => rw [play_random_go, if_neg (by simp)]
  | cons r rest ih =>
    rw [play_random_go, if_neg (by simp), if_neg (hfull r.1 r.2)]
    exact ih

/-- C10 witness: on the all-X board the loop consumes any random stream
without exiting or changing the board. -/
theorem C10_witness :
    ((∀ i, i < 9 → cell fullBoard i ≠ ' ') ∧ 9 = turn_number fullBoard) ∧
    play_random_go 9 'X' [0, 3, 8] fullBoard = (fullBoard, false) :=
  ⟨⟨by decide, by decide⟩,
   C10_full_board_never_terminates fullBoard (by decide) 9 (by decide) 'X' [0, 3, 8]⟩

theorem rudScan_finds (mark : Char) (b : Board) :
    ∀ (l : List (ℕ × ℕ × ℕ)), (∃ c ∈ l, winnablePattern b mark c = true) →
      ∃ i, rudScan mark mark b l = (b.set i mark, some i) ∧
           ∃ c ∈ l, winMoveAt b mark c i := by
  intro l
  induction l with
  | nil => rintro ⟨c, hc, _⟩; exact absurd hc (List.not_mem_nil c)
  | cons d rest ih =>
    rintro ⟨c, hc, hwp⟩
    by_cases h1 : cell b d.1 = mark ∧ cell b d.2.1 = mark ∧ cell b d.2.2 = ' '
    · exact ⟨d.2.2, by rw [rudScan, if_pos h1], d, List.mem_cons_self d rest,
        Or.inl ⟨rfl, h1.1, h1.2.1, h1.2.2⟩⟩
    · by_cases h2 : cell b d.2.1 = mark ∧ cell b d.2.2 = mark ∧ cell b d.1 = ' '
      · refine ⟨d.1, ?_, d, List.mem_cons_self d rest,
          Or.inr (Or.inl ⟨rfl, h2.1, h2.2.1, h2.2.2⟩)⟩
        rw [rudScan, if_neg h1, if_pos h2]
      · by_cases h3 : cell b d.1 = mark ∧ cell b d.2.2 = mark ∧ cell b d.2.1 = ' '
        · refine ⟨d.2.1, ?_, d, List.mem_cons_self d rest,
            Or.inr (Or.inr ⟨rfl, h3.1, h3.2.1, h3.2.2⟩)⟩
          rw [rudScan, if_neg h1, if_neg h2, if_pos h3]
        · have hd : c ∈ rest := by
            rcases List.mem_cons.mp hc with h | h
            · subst h
              have hw : (cell b c.1 = mark ∧ cell b c.2.1 = mark ∧ cell b c.2.2 = ' ') ∨
                  (cell b c.2.1 = mark ∧ cell b c.2.2 = mark ∧ cell b c.1 = ' ') ∨
                  (cell b c.1 = mark ∧ cell b c.2.2 = mark ∧ cell b c.2.1 = ' ') := by
                simpa [winnablePattern] using hwp
              rcases hw with h | h | h
              exacts [absurd h h1, absurd h h2, absurd h h3]
            · exact h
          obtain ⟨i, heq, c2, hc2, hm2⟩ := ih ⟨c, hd, hwp⟩
          exact ⟨i, by rw [rudScan, if_neg h1, if_neg h2, if_neg h3]; exact heq,
            c2, List.mem_cons_of_mem d hc2, hm2⟩

/-- C4: on any board where the acting mark has a winning move available and
the opponent simultaneously has a line needing a block, play_rudiments (under
every shuffle order) completes a winning line for the acting mark - the
play-to-win pass finishes and places before the play-to-block pass can run. -/
theorem C4_rudiments_win_priority (tn : ℕ) (mark : Char) (hm : mark ≠ ' ')
    (b : Board) (hlen : b.length = 9) (combos : List (ℕ × ℕ × ℕ))
    (hp : combos.Perm WINNING_COMBOS) (htn : tn = turn_number b)
    (hwin : ∃ c ∈ WINNING_COMBOS, winnablePattern b mark c = true)
    (hblock : ∃ c ∈ WINNING_COMBOS, winnablePattern b (opponent_of mark) c = true) :
    ∃ i, play_rudiments tn mark combos b = (b.set i mark, some i) ∧
         ∃ c ∈ WINNING_COMBOS, winMoveAt b mark c i := by
  obtain ⟨c, hc, hwp⟩ := hwin
  obtain ⟨i, heq, c2, hcc2, hm2⟩ :=
    rudScan_finds mark b combos ⟨c, hp.mem_iff.mpr hc, hwp⟩
  have hc2W : c2 ∈ WINNING_COMBOS := hp.subset hcc2
  obtain ⟨hb1, hb2, hb3⟩ := combos_bounds c2 hc2W
  have hied : i < 9 ∧ cell b i = ' ' := by
    rcases hm2 with ⟨rfl, _, _, hcell⟩ | ⟨rfl, _, _, hcell⟩ | ⟨rfl, _, _, hcell⟩
    · exact ⟨hb3, hcell⟩
    · exact ⟨by omega, hcell⟩
    · exact ⟨by omega, hcell⟩
  have hguard : turn_number (rudScan mark mark b combos).1 = turn_number b + 1 := by
    rw [heq]
    exact turn_number_set_succ b i mark (by omega) hied.2 hm
  refine ⟨i, ?_, c2, hc2W, hm2⟩
  rw [play_rudiments, if_neg (by rw [hguard]; omega), heq]

/-- C4 witness: X wins at square 2 of the top row instead of blocking O's
middle row. -/
theorem C4_witness :
    ('X' ≠ ' ' ∧ rudTestBoard.length = 9 ∧ 4 = turn_number rudTestBoard ∧
     (∃ c ∈ WINNING_COMBOS, winnablePattern rudTestBoard 'X' c = true) ∧
     (∃ c ∈ WINNING_COMBOS, winnablePattern rudTestBoard (opponent_of 'X') c = true)) ∧
    (∃ i, play_rudiments 4 'X' WINNING_COMBOS rudTestBoard =
            (rudTestBoard.set i 'X', some i) ∧
          ∃ c ∈ WINNING_COMBOS, winMoveAt rudTestBoard 'X' c i) :=
  ⟨⟨by decide, by decide, by decide, by decide, by decide⟩,
   C4_rudiments_win_priority 4 'X' (by decide) rudTestBoard (by decide)
     WINNING_COMBOS (List.Perm.refl _) (by decide) (by decide) (by decide)⟩

theorem cell_oob (b : Board) (i : ℕ) (h : b.length ≤ i) : cell b i = ' ' := by
  induction b generalizing i with
  | nil => rw [cell, List.getD_nil]
  | cons a t ih =>
    cases i with
    | zero => rw [List.length_cons] at h; omega
    | succ n =>
      rw [cell, List.getD_cons_succ]
      refine ih n ?_
      rw [List.length_cons] at h
      omega

theorem cell_space_or_mem (b : Board) (i : ℕ) : cell b i = ' ' ∨ cell b i ∈ b := by
  by_cases h : i < b.length
  · exact Or.inr (cell_mem b i h)
  · exact Or.inl (cell_oob b i (by omega))

theorem play_random_go_preserves (tn : ℕ) (mark : Char) :
    ∀ (rs : List (Fin 9)) (b : Board), preservesBoard b (play_random_go tn mark rs b).1 := by
  intro rs
  induction rs with
  | nil =>
    intro b
    rw [play_random_go]
    by_cases h : tn ≠ turn_number b
    · rw [if_pos h]; exact preservesBoard_refl b
    · rw [if_neg h]; exact preservesBoard_refl b
  | cons r rest ih =>
    intro b
    rw [play_random_go]
    by_cases h : tn ≠ turn_number b
    · rw [if_pos h]; exact preservesBoard_refl b
    · rw [if_neg h]
      by_cases hc : cell b r.1 = ' '
      · rw [if_pos hc]
        exact preservesBoard_trans (preservesBoard_set_empty b r.1 mark hc) (ih _)
      · rw [if_neg hc]; exact ih b

theorem rudScan_preserves (pat mark : Char) (b : Board) :
    ∀ l, preservesBoard b (rudScan pat mark b l).1 := by
  intro l
  induction l with
  | nil => exact preservesBoard_refl b
  | cons d rest ih =>
    rw [rudScan]
    by_cases h1 : cell b d.1 = pat ∧ cell b d.2.1 = pat ∧ cell b d.2.2 = ' '
    · rw [if_pos h1]; exact preservesBoard_set_empty b d.2.2 mark h1.2.2
    · rw [if_neg h1]
      by_cases h2 : cell b d.2.1 = pat ∧ cell b d.2.2 = pat ∧ cell b d.1 = ' '
      · rw [if_pos h2]; exact preservesBoard_set_empty b d.1 mark h2.2.2
      · rw [if_neg h2]
        by_cases h3 : cell b d.1 = pat ∧ cell b d.2.2 = pat ∧ cell b d.2.1 = ' '
        · rw [if_pos h3]; exact preservesBoard_set_empty b d.2.1 mark h3.2.2
        · rw [if_neg h3]; exact ih

theorem rudScan_shape (pat mark : Char) (b : Board) :
    ∀ l, rudScan pat mark b l = (b, none) ∨
      ∃ j, cell b j = ' ' ∧ rudScan pat mark b l = (b.set j mark, some j) := by
  intro l
  induction l with
  | nil => exact Or.inl rfl
  | cons d rest ih =>
    rw [rudScan]
    by_cases h1 : cell b d.1 = pat ∧ cell b d.2.1 = pat ∧ cell b d.2.2 = ' '
    · rw [if_pos h1]; exact Or.inr ⟨d.2.2, h1.2.2, rfl⟩
    · rw [if_neg h1]
      by_cases h2 : cell b d.2.1 = pat ∧ cell b d.2.2 = pat ∧ cell b d.1 = ' '
      · rw [if_pos h2]; exact Or.inr ⟨d.1, h2.2.2, rfl⟩
      · rw [if_neg h2]
        by_cases h3 : cell b d.1 = pat ∧ cell b d.2.2 = pat ∧ cell b d.2.1 = ' '
        · rw [if_pos h3]; exact Or.inr ⟨d.2.1, h3.2.2, rfl⟩
        · rw [if_neg h3]; exact ih

theorem rudScan_chosen_empty (pat mark : Char) (b : Board) :
    ∀ l (i : ℕ), (rudScan pat mark b l).2 = some i → cell b i = ' ' := by
  intro l
  induction l with
  | nil => intro i h; exact absurd h (by simp [rudScan])
  | cons d rest ih =>
    intro i h
    rw [rudScan] at h
    by_cases h1 : cell b d.1 = pat ∧ cell b d.2.1 = pat ∧ cell b d.2.2 = ' '
    · rw [if_pos h1] at h
      have : d.2.2 = i := by simpa using h
      rw [← this]; exact h1.2.2
    · rw [if_neg h1] at h
      by_cases h2 : cell b d.2.1 = pat ∧ cell b d.2.2 = pat ∧ cell b d.1 = ' '
      · rw [if_pos h2] at h
        have : d.1 = i := by simpa using h
        rw [← this]; exact h2.2.2
      · rw [if_neg h2] at h
        by_cases h3 : cell b d.1 = pat ∧ cell b d.2.2 = pat ∧ cell b d.2.1 = ' '
        · rw [if_pos h3] at h
          have : d.2.1 = i := by simpa using h
          rw [← this]; exact h3.2.2
        · rw [if_neg h3] at h; exact ih i h

theorem rudScan_none (pat mark : Char) (b : Board) :
    ∀ l, (∀ c ∈ l, winnablePattern b pat c = false) → rudScan pat mark b l = (b, none) := by
  intro l
  induction l with
  | nil => intro _; rfl
  | cons d rest ih =>
    intro h
    have hd := h d (List.mem_cons_self d rest)
    have hsplit : ¬(cell b d.1 = pat ∧ cell b d.2.1 = pat ∧ cell b d.2.2 = ' ') ∧
        ¬(cell b d.2.1 = pat ∧ cell b d.2.2 = pat ∧ cell b d.1 = ' ') ∧
        ¬(cell b d.1 = pat ∧ cell b d.2.2 = pat ∧ cell b d.2.1 = ' ') := by
      have := hd
      simp only [winnablePattern, decide_eq_false_iff_not] at this
      tauto
    rw [rudScan, if_neg hsplit.1, if_neg hsplit.2.1, if_neg hsplit.2.2]
    exact ih (fun c hc => h c (List.mem_cons_of_mem d hc))

theorem play_rudiments_preserves (tn : ℕ) (mark : Char) (combos : List (ℕ × ℕ × ℕ))
    (b : Board) : preservesBoard b (play_rudiments tn mark combos b).1 := by
  rw [play_rudiments]
  by_cases hg : tn = turn_number (rudScan mark mark b combos).1
  · rw [if_pos hg]
    exact preservesBoard_trans (rudScan_preserves mark mark b combos)
      (rudScan_preserves (opponent_of mark) mark _ combos)
  · rw [if_neg hg]
    exact rudScan_preserves mark mark b combos

theorem play_rudiments_chosen_empty (tn : ℕ) (mark : Char)
    (combos : List (ℕ × ℕ × ℕ)) (b : Board) (i : ℕ) :
    (play_rudiments tn mark combos b).2 = some i → cell b i = ' ' := by
  rw [play_rudiments]
  by_cases hg : tn = turn_number (rudScan mark mark b combos).1
  · rw [if_pos hg]
    dsimp only
    intro h
    rcases rudScan_shape mark mark b combos with hw | ⟨j, hj, hw⟩
    · rw [hw] at h
      dsimp only at h
      by_cases hbl : (rudScan (opponent_of mark) mark b combos).2.isSome = true
      · rw [if_pos hbl] at h
        exact rudScan_chosen_empty (opponent_of mark) mark b combos i h
      · rw [if_neg hbl] at h
        exact absurd h (by simp)
    · rw [hw] at h
      dsimp only at h
      by_cases hbl : (rudScan (opponent_of mark) mark (b.set j mark) combos).2.isSome = true
      · rw [if_pos hbl] at h
        have hce := rudScan_chosen_empty (opponent_of mark) mark (b.set j mark) combos i h
        by_cases hij : i = j
        · rw [hij]; exact hj
        · rw [← cell_set_ne mark b i j hij]; exact hce
      · rw [if_neg hbl] at h
        have : j = i := by simpa using h
        rw [← this]; exact hj
  · rw [if_neg hg]
    exact rudScan_chosen_empty mark mark b combos i

theorem play_rudiments_none (tn : ℕ) (mark : Char) (combos : List (ℕ × ℕ × ℕ))
    (b : Board) (h : ∀ c ∈ combos, winnablePattern b mark c = false)
    (h2 : ∀ c ∈ combos, winnablePattern b (opponent_of mark) c = false) :
    play_rudiments tn mark combos b = (b, none) := by
  have hw := rudScan_none mark mark b combos h
  have hb := rudScan_none (opponent_of mark) mark b combos h2
  rw [play_rudiments]
  by_cases hg : tn = turn_number (rudScan mark mark b combos).1
  · rw [if_pos hg]
    simp only [hw]
    simp [hb]
  · rw [if_neg hg]
    exact hw

theorem cornersScan_preserves (tn : ℕ) (mark : Char) (b : Board) :
    ∀ l, preservesBoard b (cornersScan tn mark b l).1 := by
  intro l
  induction l with
  | nil => exact preservesBoard_refl b
  | cons i rest ih =>
    rw [cornersScan]
    by_cases h : tn = turn_number b ∧ cell b i = ' '
    · rw [if_pos h]; exact preservesBoard_set_empty b i mark h.2
    · rw [if_neg h]; exact ih

theorem cornersScan_chosen (tn : ℕ) (mark : Char) (b : Board) :
    ∀ l (i : ℕ), (cornersScan tn mark b l).2 = some i → cell b i = ' ' := by
  intro l
  induction l with
  | nil => intro i h; exact absurd h (by simp [cornersScan])
  | cons j rest ih =>
    intro i h
    rw [cornersScan] at h
    by_cases hc : tn = turn_number b ∧ cell b j = ' '
    · rw [if_pos hc] at h
      have : j = i := by simpa using h
      rw [← this]; exact hc.2
    · rw [if_neg hc] at h; exact ih i h

theorem defSideCenter_preserves (mark opp : Char) (b : Board) :
    ∀ l, preservesBoard b (defSideCenter mark opp b l).1 := by
  intro l
  induction l with
  | nil => exact preservesBoard_refl b
  | cons a rest ih =>
    rw [defSideCenter]
    by_cases h : cell b a = opp
    · rw [if_pos h]
      by_cases h4 : cell b 4 = ' '
      · rw [if_pos h4]; exact preservesBoard_set_empty b 4 mark h4
      · rw [if_neg h4]; exact preservesBoard_refl b
    · rw [if_neg h]; exact ih

theorem defSideCenter_shape (mark opp : Char) (b : Board) :
    ∀ l, (defSideCenter mark opp b l).1 = b ∨
      (defSideCenter mark opp b l).1 = b.set 4 mark := by
  intro l
  induction l with
  | nil => exact Or.inl rfl
  | cons a rest ih =>
    rw [defSideCenter]
    by_cases h : cell b a = opp
    · rw [if_pos h]
      by_cases h4 : cell b 4 = ' '
      · rw [if_pos h4]; exact Or.inr rfl
      · rw [if_neg h4]; exact Or.inl rfl
    · rw [if_neg h]; exact ih

theorem defSideCenter_finds (mark opp : Char) (b : Board) (h4 : cell b 4 = ' ') :
    ∀ l, (∃ i ∈ l, cell b i = opp) →
      defSideCenter mark opp b l = (b.set 4 mark, some 4) := by
  intro l
  induction l with
  | nil => rintro ⟨i, hi, _⟩; exact absurd hi (List.not_mem_nil i)
  | cons a rest ih =>
    rintro ⟨i, hi, hio⟩
    rw [defSideCenter]
    by_cases ha : cell b a = opp
    · rw [if_pos ha, if_pos h4]
    · rw [if_neg ha]
      refine ih ⟨i, ?_, hio⟩
      rcases List.mem_cons.mp hi with h | h
      · exact absurd (h ▸ hio) ha
      · exact h

theorem defTable_preserves (mark : Char) (oppo : List ℕ) (b : Board) :
    ∀ t, preservesBoard b (defTable mark oppo b t).1 := by
  intro t
  induction t with
  | nil => exact preservesBoard_refl b
  | cons kv rest ih =>
    obtain ⟨key, val⟩ := kv
    rw [defTable]
    by_cases h : cell b key = ' ' ∧ oppo = val
    · rw [if_pos h]; exact preservesBoard_set_empty b key mark h.1
    · rw [if_neg h]; exact ih

theorem defTable_shape (mark : Char) (oppo : List ℕ) (b : Board) :
    ∀ t, (defTable mark oppo b t).1 = b ∨
      ∃ k, (∃ v, (k, v) ∈ t) ∧ (defTable mark oppo b t).1 = b.set k mark := by
  intro t
  induction t with
  | nil => exact Or.inl rfl
  | cons kv rest ih =>
    obtain ⟨key, val⟩ := kv
    rw [defTable]
    by_cases h : cell b key = ' ' ∧ oppo = val
    · rw [if_pos h]
      exact Or.inr ⟨key, ⟨val, List.mem_cons_self _ _⟩, rfl⟩
    · rw [if_neg h]
      rcases ih with h1 | ⟨k, ⟨v, hv⟩, h1⟩
      · exact Or.inl h1
      · exact Or.inr ⟨k, ⟨v, List.mem_cons_of_mem _ hv⟩, h1⟩

theorem defPara_preserves (mark : Char) (s2p : ℕ) (oppo : List ℕ) (b : Board)
    (hs : cell b s2p = ' ' ∨ cell b s2p = mark) :
    ∀ pl, preservesBoard b (defPara mark s2p oppo b pl).1 := by
  intro pl
  induction pl with
  | nil => exact preservesBoard_refl b
  | cons pr rest ih =>
    rw [defPara]
    by_cases h : pr = oppo
    · rw [if_pos h]
      rcases hs with h2 | h2
      · exact preservesBoard_set_empty b s2p mark h2
      · exact preservesBoard_set_same b s2p mark h2
    · rw [if_neg h]; exact ih

theorem defPara_id (mark : Char) (s2p : ℕ) (oppo : List ℕ) (b : Board) :
    ∀ pl, (∀ pr ∈ pl, pr ≠ oppo) → defPara mark s2p oppo b pl = (b, none) := by
  intro pl
  induction pl with
  | nil => intro _; rfl
  | cons pr rest ih =>
    intro h
    rw [defPara, if_neg (h pr (List.mem_cons_self pr rest))]
    exact ih (fun q hq => h q (List.mem_cons_of_mem pr hq))

theorem play_defense_eq_stages (tn : ℕ) (mark : Char) (so ss : List ℕ) (b : Board) :
    play_defense tn mark so ss b =
      (if tn = turn_number (defR4 tn mark so b).1 then
        defPara mark (ss.headD 1) (oppo_positions b (opponent_of mark))
          (defR4 tn mark so b).1 PARA_CORNERS
      else defR4 tn mark so b) := rfl

theorem defR1_preserves (tn : ℕ) (mark : Char) (b : Board) :
    preservesBoard b (defR1 tn mark b).1 := by
  rw [defR1]
  by_cases h : tn = 1 ∧ cell b 4 = ' '
  · rw [if_pos h]; exact preservesBoard_set_empty b 4 mark h.2
  · rw [if_neg h]; exact preservesBoard_refl b

theorem defR1_shape (tn : ℕ) (mark : Char) (b : Board) :
    (defR1 tn mark b).1 = b ∨ (defR1 tn mark b).1 = b.set 4 mark := by
  rw [defR1]
  by_cases h : tn = 1 ∧ cell b 4 = ' '
  · rw [if_pos h]; exact Or.inr rfl
  · rw [if_neg h]; exact Or.inl rfl

theorem defR2_preserves (tn : ℕ) (mark : Char) (so : List ℕ) (b : Board) :
    preservesBoard b (defR2 tn mark so b).1 := by
  rw [defR2]
  by_cases h : tn = turn_number (defR1 tn mark b).1
  · rw [if_pos h]
    exact preservesBoard_trans (defR1_preserves tn mark b)
      (defSideCenter_preserves mark (opponent_of mark) _ so)
  · rw [if_neg h]; exact defR1_preserves tn mark b

theorem defR3_preserves (tn : ℕ) (mark : Char) (so : List ℕ) (b : Board) :
    preservesBoard b (defR3 tn mark so b).1 := by
  rw [defR3]
  by_cases h : tn = turn_number (defR2 tn mark so b).1
  · rw [if_pos h]
    exact preservesBoard_trans (defR2_preserves tn mark so b)
      (defTable_preserves mark _ _ ORTHO_SIDES)
  · rw [if_neg h]; exact defR2_preserves tn mark so b

theorem defR4_preserves (tn : ℕ) (mark : Char) (so : List ℕ) (b : Board) :
    preservesBoard b (defR4 tn mark so b).1 := by
  rw [defR4]
  by_cases h : tn = turn_number (defR3 tn mark so b).1
  · rw [if_pos h]
    exact preservesBoard_trans (defR3_preserves tn mark so b)
      (defTable_preserves mark _ _ META_POSITIONS)
  · rw [if_neg h]; exact defR3_preserves tn mark so b

theorem ortho_keys : ∀ kv ∈ ORTHO_SIDES, kv.1 = 0 ∨ kv.1 = 2 ∨ kv.1 = 6 ∨ kv.1 = 8 := by
  decide

theorem meta_keys : ∀ kv ∈ META_POSITIONS, kv.1 = 0 ∨ kv.1 = 2 ∨ kv.1 = 6 ∨ kv.1 = 8 := by
  decide

theorem cell_set_even_side (b : Board) (mark : Char) (j k : ℕ)
    (hj : j = 1 ∨ j = 3 ∨ j = 5 ∨ j = 7)
    (hk : k = 0 ∨ k = 2 ∨ k = 4 ∨ k = 6 ∨ k = 8) :
    cell (b.set k mark) j = cell b j := by
  refine cell_set_ne mark b j k ?_
  rcases hj with rfl | rfl | rfl | rfl <;> rcases hk with rfl | rfl | rfl | rfl | rfl <;> omega

theorem defR1_side_cell (tn : ℕ) (mark : Char) (b : Board) (j : ℕ)
    (hj : j = 1 ∨ j = 3 ∨ j = 5 ∨ j = 7) :
    cell (defR1 tn mark b).1 j = cell b j := by
  rcases defR1_shape tn mark b with h | h
  · rw [h]
  · rw [h]; exact cell_set_even_side b mark j 4 hj (by omega)

theorem defR2_side_cell (tn : ℕ) (mark : Char) (so : List ℕ) (b : Board) (j : ℕ)
    (hj : j = 1 ∨ j = 3 ∨ j = 5 ∨ j = 7) :
    cell (defR2 tn mark so b).1 j = cell b j := by
  rw [defR2]
  by_cases h : tn = turn_number (defR1 tn mark b).1
  · rw [if_pos h]
    rcases defSideCenter_shape mark (opponent_of mark) (defR1 tn mark b).1 so with h2 | h2
    · rw [h2]; exact defR1_side_cell tn mark b j hj
    · rw [h2, cell_set_even_side _ mark j 4 hj (by omega)]
      exact defR1_side_cell tn mark b j hj
  · rw [if_neg h]; exact defR1_side_cell tn mark b j hj

theorem defR3_side_cell (tn : ℕ) (mark : Char) (so : List ℕ) (b : Board) (j : ℕ)
    (hj : j = 1 ∨ j = 3 ∨ j = 5 ∨ j = 7) :
    cell (defR3 tn mark so b).1 j = cell b j := by
  rw [defR3]
  by_cases h : tn = turn_number (defR2 tn mark so b).1
  · rw [if_pos h]
    rcases defTable_shape mark (oppo_positions b (opponent_of mark))
        (defR2 tn mark so b).1 ORTHO_SIDES with h2 | ⟨k, ⟨v, hkv⟩, h2⟩
    · rw [h2]; exact defR2_side_cell tn mark so b j hj
    · have hk := ortho_keys (k, v) hkv
      rw [h2, cell_set_even_side _ mark j k hj (by tauto)]
      exact defR2_side_cell tn mark so b j hj
  · rw [if_neg h]; exact defR2_side_cell tn mark so b j hj

theorem defR4_side_cell (tn : ℕ) (mark : Char) (so : List ℕ) (b : Board) (j : ℕ)
    (hj : j = 1 ∨ j = 3 ∨ j = 5 ∨ j = 7) :
    cell (defR4 tn mark so b).1 j = cell b j := by
  rw [defR4]
  by_cases h : tn = turn_number (defR3 tn mark so b).1
  · rw [if_pos h]
    rcases defTable_shape mark (oppo_positions b (opponent_of mark))
        (defR3 tn mark so b).1 META_POSITIONS with h2 | ⟨k, ⟨v, hkv⟩, h2⟩
    · rw [h2]; exact defR3_side_cell tn mark so b j hj
    · have hk := meta_keys (k, v) hkv
      rw [h2, cell_set_even_side _ mark j k hj (by tauto)]
      exact defR3_side_cell tn mark so b j hj
  · rw [if_neg h]; exact defR3_side_cell tn mark so b j hj

theorem play_defense_preserves (tn : ℕ) (mark : Char)
    (hmark : mark = 'X' ∨ mark = 'O')
    (sidesOrder sidesShuffled : List ℕ) (hshuf : sidesShuffled.Perm SIDES)
    (b : Board) (hcells : ∀ ch ∈ b, ch = ' ' ∨ ch = 'X' ∨ ch = 'O') :
    preservesBoard b (play_defense tn mark sidesOrder sidesShuffled b).1 := by
  rw [play_defense_eq_stages]
  by_cases hg : tn = turn_number (defR4 tn mark sidesOrder b).1
  · rw [if_pos hg]
    refine preservesBoard_trans (defR4_preserves tn mark sidesOrder b) ?_
    by_cases hfire : (([0, 8] : List ℕ) = oppo_positions b (opponent_of mark) ∨
        ([2, 6] : List ℕ) = oppo_positions b (opponent_of mark))
    · have hsmem : sidesShuffled.headD 1 ∈ SIDES := by
        cases sidesShuffled with
        | nil => decide
        | cons a t => exact hshuf.subset (List.mem_cons_self a t)
      have hsval : sidesShuffled.headD 1 = 1 ∨ sidesShuffled.headD 1 = 3 ∨
          sidesShuffled.headD 1 = 5 ∨ sidesShuffled.headD 1 = 7 := by
        simpa [SIDES] using hsmem
      have hnopp : cell b (sidesShuffled.headD 1) ≠ opponent_of mark := by
        intro hco
        have hlt : sidesShuffled.headD 1 < 9 := by rcases hsval with h | h | h | h <;> omega
        have hmem9 : sidesShuffled.headD 1 ∈ oppo_positions b (opponent_of mark) := by
          rw [oppo_positions]
          exact List.mem_filter.mpr ⟨List.mem_range.mpr hlt, decide_eq_true hco⟩
        rcases hfire with h | h
        · rw [← h] at hmem9
          rcases hsval with hv | hv | hv | hv <;> rw [hv] at hmem9 <;> simp at hmem9
        · rw [← h] at hmem9
          rcases hsval with hv | hv | hv | hv <;> rw [hv] at hmem9 <;> simp at hmem9
      have hcb : cell b (sidesShuffled.headD 1) = ' ' ∨
          cell b (sidesShuffled.headD 1) = mark := by
        rcases cell_space_or_mem b (sidesShuffled.headD 1) with h | h
        · exact Or.inl h
        · rcases hcells _ h with h1 | h1 | h1
          · exact Or.inl h1
          · rcases hmark with hmk | hmk
            · exact Or.inr (by rw [h1, hmk])
            · exact absurd (by rw [h1, hmk]; decide : cell b (sidesShuffled.headD 1) = opponent_of mark) hnopp
          · rcases hmark with hmk | hmk
            · exact absurd (by rw [h1, hmk]; decide : cell b (sidesShuffled.headD 1) = opponent_of mark) hnopp
            · exact Or.inr (by rw [h1, hmk])
      have hc4 : cell (defR4 tn mark sidesOrder b).1 (sidesShuffled.headD 1) =
          cell b (sidesShuffled.headD 1) := defR4_side_cell tn mark sidesOrder b _ hsval
      exact defPara_preserves mark _ _ _ (by rw [hc4]; exact hcb) PARA_CORNERS
    · rw [defPara_id mark (sidesShuffled.headD 1) (oppo_positions b (opponent_of mark))
        (defR4 tn mark sidesOrder b).1 PARA_CORNERS ?_]
      · exact preservesBoard_refl _
      · intro pr hpr
        have hpr2 : pr = [0, 8] ∨ pr = [2, 6] := by simpa [PARA_CORNERS] using hpr
        rcases hpr2 with rfl | rfl
        · exact fun he => hfire (Or.inl he)
        · exact fun he => hfire (Or.inr he)
  · rw [if_neg hg]
    exact defR4_preserves tn mark sidesOrder b

/-- C3 counterexample: on the reachable, non-full board with O exactly on the
opposite corners 0 and 8 (X started with 1, 0, 5, 8), play_defense's
PARA_CORNERS rule plays side2play = SIDES[0] with no emptiness check; with the
shuffle leaving SIDES in its sorted order, the routine returns index 1 - a
square that already holds the mover's own mark - so "writes a mark only into a
currently-empty cell" fails as stated.  (The write re-stores the same mark, so
no square's content changes; see the amended theorem.) -/
theorem C3_counterexample :
    playSeq 'X' [1, 0, 5, 8] emptyBoard = some paraOverwriteBoard ∧
    turn_number paraOverwriteBoard < 9 ∧
    4 = turn_number paraOverwriteBoard ∧
    cell paraOverwriteBoard 1 ≠ ' ' ∧
    (play_defense 4 'X' SIDES SIDES paraOverwriteBoard).2 = some 1 := by
  decide

/-- C3 corrected: whatever the shuffle outcomes and random streams, no
routine ever changes the content of an already-occupied square - play_random,
play_rudiments and play_corners write only empty squares (their returned index
is empty), and play_defense can at worst re-store the mover's own mark on an
occupied side square (PARA_CORNERS rule), leaving every occupied square's
content intact. -/
theorem C3_no_overwrite (b : Board) (mark : Char)
    (hmark : mark = 'X' ∨ mark = 'O')
    (hcells : ∀ ch ∈ b, ch = ' ' ∨ ch = 'X' ∨ ch = 'O')
    (tn : ℕ) (rs : List (Fin 9)) (combos : List (ℕ × ℕ × ℕ))
    (sidesOrder sidesShuffled cornersOrder : List ℕ)
    (hshuf : sidesShuffled.Perm SIDES) :
    preservesBoard b (play_random_go tn mark rs b).1 ∧
    preservesBoard b (play_rudiments tn mark combos b).1 ∧
    preservesBoard b (play_defense tn mark sidesOrder sidesShuffled b).1 ∧
    preservesBoard b (play_corners tn mark cornersOrder b).1 ∧
    (∀ i, (play_rudiments tn mark combos b).2 = some i → cell b i = ' ') ∧
    (∀ i, (play_corners tn mark cornersOrder b).2 = some i → cell b i = ' ') :=
  ⟨play_random_go_preserves tn mark rs b,
   play_rudiments_preserves tn mark combos b,
   play_defense_preserves tn mark hmark sidesOrder sidesShuffled hshuf b hcells,
   cornersScan_preserves tn mark b cornersOrder,
   fun i => play_rudiments_chosen_empty tn mark combos b i,
   fun i => cornersScan_chosen tn mark b cornersOrder i⟩

/-- C3 witness: the amended no-overwrite property instantiated on the
counterexample board. -/
theorem C3_witness :
    (('X' = 'X' ∨ 'X' = 'O') ∧
     (∀ ch ∈ paraOverwriteBoard, ch = ' ' ∨ ch = 'X' ∨ ch = 'O') ∧
     List.Perm SIDES SIDES) ∧
    (preservesBoard paraOverwriteBoard
       (play_random_go 4 'X' [] paraOverwriteBoard).1 ∧
     preservesBoard paraOverwriteBoard
       (play_rudiments 4 'X' WINNING_COMBOS paraOverwriteBoard).1 ∧
     preservesBoard paraOverwriteBoard
       (play_defense 4 'X' SIDES SIDES paraOverwriteBoard).1 ∧
     preservesBoard paraOverwriteBoard
       (play_corners 4 'X' CORNERS paraOverwriteBoard).1 ∧
     (∀ i, (play_rudiments 4 'X' WINNING_COMBOS paraOverwriteBoard).2 = some i →
        cell paraOverwriteBoard i = ' ') ∧
     (∀ i, (play_corners 4 'X' CORNERS paraOverwriteBoard).2 = some i →
        cell paraOverwriteBoard i = ' ')) :=
  ⟨⟨Or.inl rfl, by decide, List.Perm.refl _⟩,
   C3_no_overwrite paraOverwriteBoard 'X' (Or.inl rfl) (by decide) 4 []
     WINNING_COMBOS SIDES SIDES CORNERS (List.Perm.refl _)⟩

theorem defR4_of_r1_placed (tn : ℕ) (mark : Char) (so : List ℕ) (b : Board)
    (h1 : defR1 tn mark b = (b.set 4 mark, some 4))
    (hne : ¬ tn = turn_number (b.set 4 mark)) :
    defR4 tn mark so b = (b.set 4 mark, some 4) := by
  have h2 : defR2 tn mark so b = (b.set 4 mark, some 4) := by
    rw [defR2, h1]
    dsimp only
    rw [if_neg hne]
  have h3 : defR3 tn mark so b = (b.set 4 mark, some 4) := by
    rw [defR3, h2]
    dsimp only
    rw [if_neg hne]
  rw [defR4, h3]
  dsimp only
  rw [if_neg hne]

theorem defR4_of_side_center (tn : ℕ) (mark : Char) (so : List ℕ) (b : Board)
    (htn : tn = turn_number b)
    (h1 : defR1 tn mark b = (b, none))
    (hfind : defSideCenter mark (opponent_of mark) b so = (b.set 4 mark, some 4))
    (hne : ¬ tn = turn_number (b.set 4 mark)) :
    defR4 tn mark so b = (b.set 4 mark, some 4) := by
  have h2 : defR2 tn mark so b = (b.set 4 mark, some 4) := by
    rw [defR2, h1]
    dsimp only
    rw [if_pos htn, hfind]
  have h3 : defR3 tn mark so b = (b.set 4 mark, some 4) := by
    rw [defR3, h2]
    dsimp only
    rw [if_neg hne]
  rw [defR4, h3]
  dsimp only
  rw [if_neg hne]

theorem play_defense_center (tn : ℕ) (mark : Char) (hm : mark ≠ ' ')
    (so ss : List ℕ) (b : Board) (hlen : b.length = 9)
    (htn : tn = turn_number b) (hcenter : cell b 4 = ' ')
    (hside : ∃ i ∈ so, cell b i = opponent_of mark) :
    play_defense tn mark so ss b = (b.set 4 mark, some 4) := by
  have hset : turn_number (b.set 4 mark) = turn_number b + 1 :=
    turn_number_set_succ b 4 mark (by omega) hcenter hm
  have hne : ¬ tn = turn_number (b.set 4 mark) := by rw [hset]; omega
  have hr4 : defR4 tn mark so b = (b.set 4 mark, some 4) := by
    by_cases h1 : tn = 1 ∧ cell b 4 = ' '
    · refine defR4_of_r1_placed tn mark so b ?_ hne
      rw [defR1, if_pos h1]
    · have h1e : defR1 tn mark b = (b, none) := by rw [defR1, if_neg h1]
      refine defR4_of_side_center tn mark so b htn h1e ?_ hne
      exact defSideCenter_finds mark (opponent_of mark) b hcenter so hside
  rw [play_defense_eq_stages, hr4]
  dsimp only
  rw [if_neg hne]

/-- C6 corrected: under the Tactics/strategy policy, with the opponent exactly
on the adjacent sides 1 and 3, no winning or blocking move for either mark,
and the center empty, the strategy plays the CENTER square 4 (the
side-defense rule precedes the ORTHO_SIDES corner rule and takes the open
center), not corner 0. -/
theorem C6_center_defense (o : Oracle) (hB : o.combosB.Perm WINNING_COMBOS)
    (hSo : o.sidesOrder.Perm SIDES) (mark : Char) (hmark : mark = 'X' ∨ mark = 'O')
    (b : Board) (hlen : b.length = 9)
    (hoppo : oppo_positions b (opponent_of mark) = [1, 3])
    (hcenter : cell b 4 = ' ')
    (hnoW : ∀ c ∈ WINNING_COMBOS, winnablePattern b mark c = false)
    (hnoB : ∀ c ∈ WINNING_COMBOS, winnablePattern b (opponent_of mark) c = false) :
    autoplay_strategy_turn o mark b = b.set 4 mark := by
  have hm : mark ≠ ' ' := by rcases hmark with h | h <;> subst h <;> decide
  have h1opp : cell b 1 = opponent_of mark := by
    have h1 : (1 : ℕ) ∈ oppo_positions b (opponent_of mark) := by rw [hoppo]; simp
    rw [oppo_positions] at h1
    have h2 := (List.mem_filter.mp h1).2
    simpa using h2
  have hop_ne : opponent_of mark ≠ ' ' := by rcases hmark with h | h <;> subst h <;> decide
  have htn1 : 1 ≤ turn_number b := by
    rw [turn_number_eq_countP]
    refine countP_ge_one _ (by decide) b 1 ?_
    rw [h1opp]
    exact decide_eq_true hop_ne
  have hrud : play_rudiments (turn_number b) mark o.combosB b = (b, none) :=
    play_rudiments_none _ mark o.combosB b
      (fun c hc => hnoW c (hB.subset hc))
      (fun c hc => hnoB c (hB.subset hc))
  have hdef : play_defense (turn_number b) mark o.sidesOrder o.sidesShuffled b =
      (b.set 4 mark, some 4) := by
    refine play_defense_center _ mark hm o.sidesOrder o.sidesShuffled b hlen rfl hcenter ?_
    exact ⟨1, hSo.mem_iff.mpr (by decide), h1opp⟩
  have hset : turn_number (b.set 4 mark) = turn_number b + 1 :=
    turn_number_set_succ b 4 mark (by omega) hcenter hm
  have hne : ¬ turn_number b = turn_number (b.set 4 mark) := by rw [hset]; omega
  rw [autoplay_strategy_turn]
  rw [if_neg (show ¬ turn_number b = 0 by omega)]
  rw [if_pos rfl, hrud]
  dsimp only
  rw [if_pos rfl, hdef]
  dsimp only
  rw [if_neg hne, if_neg hne]

/-- C6 counterexample: on the reachable board with O exactly on sides 1 and 3,
the center empty and no winning or blocking move for either mark, the Tactics
pipeline leaves corner 0 EMPTY and plays the center 4 - refuting "the
strategy's chosen cell is 0". -/
theorem C6_counterexample :
    playSeq 'O' [1, 8, 3] emptyBoard = some orthoSidesBoard ∧
    oppo_positions orthoSidesBoard (opponent_of 'X') = [1, 3] ∧
    cell orthoSidesBoard 4 = ' ' ∧
    (∀ c ∈ WINNING_COMBOS, winnablePattern orthoSidesBoard 'X' c = false ∧
      winnablePattern orthoSidesBoard 'O' c = false) ∧
    cell (autoplay_strategy_turn oracle0 'X' orthoSidesBoard) 0 = ' ' ∧
    cell (autoplay_strategy_turn oracle0 'X' orthoSidesBoard) 4 = 'X' := by
  decide

/-- C6 witness: the amended center-defense conclusion on the counterexample
board. -/
theorem C6_witness :
    (oracle0.combosB.Perm WINNING_COMBOS ∧ oracle0.sidesOrder.Perm SIDES ∧
     ('X' = 'X' ∨ 'X' = 'O') ∧ orthoSidesBoard.length = 9 ∧
     oppo_positions orthoSidesBoard (opponent_of 'X') = [1, 3] ∧
     cell orthoSidesBoard 4 = ' ' ∧
     (∀ c ∈ WINNING_COMBOS, winnablePattern orthoSidesBoard 'X' c = false) ∧
     (∀ c ∈ WINNING_COMBOS, winnablePattern orthoSidesBoard (opponent_of 'X') c = false)) ∧
    autoplay_strategy_turn oracle0 'X' orthoSidesBoard = orthoSidesBoard.set 4 'X' :=
  ⟨⟨List.Perm.refl _, List.Perm.refl _, Or.inl rfl, by decide, by decide, by decide,
    by decide, by decide⟩,
   C6_center_defense oracle0 (List.Perm.refl _) (List.Perm.refl _) 'X' (Or.inl rfl)
     orthoSidesBoard (by decide) (by decide) (by decide) (by decide) (by decide)⟩
